import Mathlib

set_option maxHeartbeats 1000000

/-!
Shallow embedding of the `cmd` package, a line-oriented command
interpreter: character classes, tokenizer, flag model, command data
model, dispatcher, help command, completion, history store, async
facility and session loop, together with theorems about each part.
-/

namespace CmdSpec

/- ### Characters: models of the Go `unicode` predicates used by the source -/

/-- Model of Go `unicode.IsSpace` (the Unicode White_Space property). -/
def isGoSpace (c : Char) : Bool :=
  let n := c.toNat
  n == 9 || n == 10 || n == 11 || n == 12 || n == 13 || n == 32 ||
  n == 0x85 || n == 0xA0 || n == 0x1680 ||
  (Nat.ble 0x2000 n && Nat.ble n 0x200A) ||
  n == 0x2028 || n == 0x2029 || n == 0x202F || n == 0x205F || n == 0x3000

/-- Model of Go `unicode.In(ch, unicode.Quotation_Mark)`: the Unicode
Quotation_Mark property table. -/
def isQuotationMark (c : Char) : Bool :=
  let n := c.toNat
  n == 0x22 || n == 0x27 || n == 0xAB || n == 0xBB ||
  (Nat.ble 0x2018 n && Nat.ble n 0x201F) || n == 0x2039 || n == 0x203A ||
  n == 0x2E42 || (Nat.ble 0x300C n && Nat.ble n 0x300F) ||
  (Nat.ble 0x301D n && Nat.ble n 0x301F) ||
  (Nat.ble 0xFE41 n && Nat.ble n 0xFE44) ||
  n == 0xFF02 || n == 0xFF07 || n == 0xFF62 || n == 0xFF63

/- ### String helpers: models of the Go `strings` functions used by the source -/

/-- Model of Go `strings.HasPrefix s pre`. -/
def hasPrefixGo (s pre : String) : Bool :=
  pre.toList.isPrefixOf s.toList

/-- Model of Go `strings.SplitN(s, " ", 2)`: split at the first space,
or return the whole string as a single element when there is none. -/
def splitN2Space (s : String) : List String :=
  match s.toList.findIdx? (fun c => c == ' ') with
  | Option.none => [s]
  | Option.some i => [String.mk (s.toList.take i), String.mk (s.toList.drop (i + 1))]

/-- Model of Go `strings.TrimSpace`: remove leading and trailing
Unicode white space. -/
def trimSpaceGo (s : String) : String :=
  String.mk (((s.toList.dropWhile isGoSpace).reverse.dropWhile isGoSpace).reverse)

/-- Model of Go `strings.Split(s, " ")`: split at every space; adjacent
separators yield empty fields, and the empty string yields `[""]`. -/
def splitSpaceAux (cs : List Char) (cur : List Char) : List String :=
  match cs with
  | [] => [String.mk cur.reverse]
  | c :: rest =>
    if c == ' ' then String.mk cur.reverse :: splitSpaceAux rest []
    else splitSpaceAux rest (c :: cur)

/-- Model of Go `strings.Split(s, " ")`. -/
def splitSpaceGo (s : String) : List String :=
  splitSpaceAux s.toList []

/- ### Flags: model of the Go standard `flag` package as used by the source
(`flag.FlagSet` with `ContinueOnError`, string and bool flags). -/

/-- One declared flag: name, usage text, declared default, current value,
and whether it is a boolean flag. -/
structure Flag where
  name : String
  usage : String
  defValue : String
  value : String
  isBool : Bool
deriving DecidableEq, Repr

/-- The flag set of one command, in declaration order. -/
abbrev FlagSet := List Flag

/-- Model of `FlagSet.Lookup`. -/
def lookupFlag (fs : FlagSet) (n : String) : Option Flag :=
  fs.find? (fun f => f.name == n)

/-- Model of `flag.Value.Set` through the flag set: update the current
value of the named flag. -/
def setFlagValue (fs : FlagSet) (n v : String) : FlagSet :=
  fs.map (fun f => if f.name == n then { f with value := v } else f)

/-- The strings accepted by Go `strconv.ParseBool`. -/
def parseBoolOk (s : String) : Bool :=
  s == "1" || s == "t" || s == "T" || s == "true" || s == "TRUE" || s == "True" ||
  s == "0" || s == "f" || s == "F" || s == "false" || s == "FALSE" || s == "False"

/-- What parsing does with the next argument: stop, set a flag using
only this argument, or set a flag whose value is the following
argument (mirrors the per-argument step `parseOne` of the Go `flag`
package). -/
inductive ParseStep where
  | halt
  | setHere (nm v : String)
  | setWithNext (nm : String)
deriving DecidableEq, Repr

/-- One step of `flag.FlagSet.Parse` (`parseOne`): examine argument `s`
(with `rest` the following arguments): parsing stops at a non-flag
argument, at `--`, or at an error (bad syntax, unknown flag, invalid
bool value, missing value); `-nm=v` sets directly; a bool flag without
`=` is set to `"true"`; any other flag takes the next argument as its
value. -/
def parseOneArg (fs : FlagSet) (s : String) (rest : List String) : ParseStep :=
  let cs := s.toList
  if cs.length < 2 || !(cs.headD ' ' == '-') then ParseStep.halt
  else
    let two := cs.getD 1 ' ' == '-'
    let body := if two then cs.drop 2 else cs.drop 1
    if two && body.isEmpty then ParseStep.halt
    else
      match body with
      | [] => ParseStep.halt
      | c0 :: crest =>
        if c0 == '-' || c0 == '=' then ParseStep.halt
        else
          match crest.findIdx? (fun c => c == '=') with
          | Option.some i =>
            let nm := String.mk (c0 :: crest.take i)
            let v := String.mk (crest.drop (i + 1))
            match lookupFlag fs nm with
            | Option.none => ParseStep.halt
            | Option.some f =>
              if f.isBool && !parseBoolOk v then ParseStep.halt
              else ParseStep.setHere nm v
          | Option.none =>
            let nm := String.mk (c0 :: crest)
            match lookupFlag fs nm with
            | Option.none => ParseStep.halt
            | Option.some f =>
              if f.isBool then ParseStep.setHere nm "true"
              else
                match rest with
                | [] => ParseStep.halt
                | _ :: _ => ParseStep.setWithNext nm

/-- Model of `flag.FlagSet.Parse` with `ContinueOnError`: apply
`parseOneArg` until it halts, leaving the values parsed so far in
place. -/
def parseFlags (fs : FlagSet) (args : List String) : FlagSet :=
  match args with
  | [] => fs
  | s :: rest =>
    match parseOneArg fs s rest with
    | ParseStep.halt => fs
    | ParseStep.setHere nm v => parseFlags (setFlagValue fs nm v) rest
    | ParseStep.setWithNext nm =>
      match rest with
      | [] => fs
      | v :: rest2 => parseFlags (setFlagValue fs nm v) rest2

/-- The names of the flags that `parseFlags` sets, in order; defined by
the same recursion as `parseFlags`. -/
def parsedNames (fs : FlagSet) (args : List String) : List String :=
  match args with
  | [] => []
  | s :: rest =>
    match parseOneArg fs s rest with
    | ParseStep.halt => []
    | ParseStep.setHere nm v => nm :: parsedNames (setFlagValue fs nm v) rest
    | ParseStep.setWithNext nm =>
      match rest with
      | [] => []
      | v :: rest2 => nm :: parsedNames (setFlagValue fs nm v) rest2

/-- Reset every flag of the set to its declared default
(`flags.VisitAll(func(flag) { flag.Value.Set(flag.DefValue) })`). -/
def resetAll (fs : FlagSet) : FlagSet :=
  fs.map (fun f => { f with value := f.defValue })

/-- The declaration-time data of a flag: everything but the current
value.  Parsing and resetting never change it. -/
def flagSig (f : Flag) : String × String × String × Bool :=
  (f.name, f.usage, f.defValue, f.isBool)

/-- Model of `Command.GetFlag` at the flag-set level: the current value
of the named flag, or the empty string when it is not declared. -/
def GetFlag (fs : FlagSet) (n : String) : String :=
  match lookupFlag fs n with
  | Option.some f => f.value
  | Option.none => ""

/- ### Tokenizer: `processQuotes` -/

/-- The core of `processQuotes`: Go `strings.FieldsFunc` applied with the
stateful closure `f` of the source, which carries the pending quote
character (`rune(0)` when outside quotes) from one character to the
next.  A character is a separator exactly when `f` returns true. -/
def fieldsQuoteAux (cs : List Char) (lastQuote : Char) (cur : List Char) : List String :=
  match cs with
  | [] => if cur.isEmpty then [] else [String.mk cur.reverse]
  | ch :: rest =>
    let sep_lq : Bool × Char :=
      if ch == lastQuote then (false, Char.ofNat 0)
      else if !(lastQuote == Char.ofNat 0) then (false, lastQuote)
      else if isQuotationMark ch then (false, ch)
      else (isGoSpace ch, lastQuote)
    if sep_lq.1 then
      if cur.isEmpty then fieldsQuoteAux rest sep_lq.2 []
      else String.mk cur.reverse :: fieldsQuoteAux rest sep_lq.2 []
    else fieldsQuoteAux rest sep_lq.2 (ch :: cur)

/-- Model of `processQuotes`: split the line on white space treating
quoted runs as single fields, then delete every `"` character from each
field (`strings.Replace(arg, "\"", "", -1)`). -/
def processQuotes (line : String) : List String :=
  (fieldsQuoteAux line.toList (Char.ofNat 0) []).map
    (fun a => String.mk (a.toList.filter (fun c => !(c == '"'))))

/- ### Command data model -/

/-- What a handler call does: return a stop signal, or panic.  The Go
handler type is `func(*Command, string) bool`; a panic in the handler
propagates out of the dispatcher (there is no recover in the package). -/
inductive HandlerOutcome where
  | normal (stop : Bool)
  | panicked
deriving DecidableEq, Repr

/-- The `Command` entity of the source: name, alias, help text, handler,
sub-commands keyed by alias/name, and the flag set.  The handler is
modelled as a function from the flag set it observes and its argument
text to an outcome; the `cmdline` back pointer carries no dispatch
behaviour and is omitted. -/
inductive Command where
  | mk (name : String) (aliasName : String) (help : String)
       (call : FlagSet → String → HandlerOutcome)
       (subCommands : List (String × Command)) (flags : FlagSet)

def Command.name : Command → String
  | .mk n _ _ _ _ _ => n

def Command.aliasName : Command → String
  | .mk _ a _ _ _ _ => a

def Command.help : Command → String
  | .mk _ _ h _ _ _ => h

def Command.call : Command → (FlagSet → String → HandlerOutcome)
  | .mk _ _ _ c _ _ => c

def Command.subCommands : Command → List (String × Command)
  | .mk _ _ _ _ s _ => s

def Command.flags : Command → FlagSet
  | .mk _ _ _ _ _ f => f

def Command.withAlias : Command → String → Command
  | .mk n _ h c s f, a => .mk n a h c s f

def Command.withHelp : Command → String → Command
  | .mk n a _ c s f, h => .mk n a h c s f

def Command.withCall : Command → (FlagSet → String → HandlerOutcome) → Command
  | .mk n a h _ s f, c => .mk n a h c s f

def Command.withSubCommands : Command → List (String × Command) → Command
  | .mk n a h c _ f, s => .mk n a h c s f

def Command.withFlags : Command → FlagSet → Command
  | .mk n a h c s _, f => .mk n a h c s f

/-- `SetCmdAlias`. -/
def setCmdAlias (a : String) (c : Command) : Command := c.withAlias a

/-- `SetHelp`. -/
def setHelp (h : String) (c : Command) : Command := c.withHelp h

/-- `SetFlag`: declare a string flag (`flags.String(flag, value, help)`):
default and current value are both the given value. -/
def setFlag (fl value help : String) (c : Command) : Command :=
  c.withFlags (c.flags ++ [⟨fl, help, value, value, false⟩])

/-- `SetBoolFlag`: declare a bool flag; Go stores it formatted. -/
def setBoolFlag (fl : String) (value : Bool) (help : String) (c : Command) : Command :=
  c.withFlags (c.flags ++ [⟨fl, help, if value then "true" else "false",
                            if value then "true" else "false", true⟩])

/-- `SetCmd`: install the handler. -/
def setCmd (f : FlagSet → String → HandlerOutcome) (c : Command) : Command :=
  c.withCall f

/-- `NewCommand`: apply the option functions in order to a freshly
defaulted command, then default the alias to the name when unset.  The
default handler returns false ("do not stop"). -/
def newCommand (name : String) (opts : List (Command → Command)) : Command :=
  let c0 := Command.mk name "" "" (fun _ _ => HandlerOutcome.normal false) [] []
  let c1 := opts.foldl (fun c o => o c) c0
  if c1.aliasName = "" then c1.withAlias c1.name else c1

/-- Go map assignment `m[k] = v` on an association list: overwrite the
existing entry for the key, or append a new one. -/
def insertAssoc (l : List (String × Command)) (k : String) (v : Command) :
    List (String × Command) :=
  if (l.find? (fun e => e.1 == k)).isSome then
    l.map (fun e => if e.1 == k then (e.1, v) else e)
  else l ++ [(k, v)]

/-- `Command.AddSubCommand`: build the sub-command like a top-level one
and insert it into the parent's sub-command map, keyed by its alias
when one was set and differs from the name, else by its name.  (The
final `if len(command.aliasName) == 0` fixup of the source mutates the
inserted sub-command's alias when the parent has no alias.) -/
def addSubCommand (parent : Command) (name : String) (opts : List (Command → Command)) :
    Command :=
  let sub := newCommand name opts
  let key := if sub.aliasName ≠ "" ∧ sub.aliasName ≠ sub.name then sub.aliasName else sub.name
  let inserted := insertAssoc parent.subCommands key sub
  let inserted2 :=
    if parent.aliasName = "" then
      inserted.map (fun e => if e.1 == key then (e.1, e.2.withAlias e.2.name) else e)
    else inserted
  parent.withSubCommands inserted2

/- ### Registry and dispatch -/

/-- `Cmd.Commands`: the command registry, keyed by alias/name. -/
abbrev Registry := List (String × Command)

/-- Registry lookup `cmd.Commands[k]`. -/
def lookupReg (reg : Registry) (k : String) : Option Command :=
  (reg.find? (fun e => e.1 == k)).map (fun e => e.2)

/-- Sub-command lookup `command.subCommands[k]`. -/
def lookupSub (c : Command) (k : String) : Option Command :=
  (c.subCommands.find? (fun e => e.1 == k)).map (fun e => e.2)

/-- `Cmd.Add`: insert/overwrite by alias when set and different from the
name, else by name. -/
def addCmd (reg : Registry) (c : Command) : Registry :=
  if c.aliasName ≠ "" ∧ c.aliasName ≠ c.name then insertAssoc reg c.aliasName c
  else insertAssoc reg c.name c

/-- Replace the flag set of the command stored under key `k`
(the Go code mutates the shared `*Command` through its pointer). -/
def updateCmdFlags (reg : Registry) (k : String) (fs : FlagSet) : Registry :=
  reg.map (fun e => if e.1 == k then (e.1, e.2.withFlags fs) else e)

/-- Replace the flag set of sub-command `sk` of command `c`. -/
def updateSubInCommand (c : Command) (sk : String) (fs : FlagSet) : Command :=
  c.withSubCommands
    (c.subCommands.map (fun e => if e.1 == sk then (e.1, e.2.withFlags fs) else e))

/-- Replace the flag set of sub-command `sk` of the command under key `k`. -/
def updateSubFlags (reg : Registry) (k sk : String) (fs : FlagSet) : Registry :=
  reg.map (fun e => if e.1 == k then (e.1, updateSubInCommand e.2 sk fs) else e)

/-- The declared flags of the command under key `k` (top level when
`sk = none`, else of its sub-command `sk`). -/
def regFlags (reg : Registry) (k : String) (sk : Option String) : Option FlagSet :=
  match lookupReg reg k with
  | Option.none => Option.none
  | Option.some c =>
    match sk with
    | Option.none => Option.some c.flags
    | Option.some s => (lookupSub c s).map Command.flags

/-- What one `OneCmd` dispatch did. -/
inductive DispatchResult where
  /-- Shell escape: the line after `!` went to `shellExec`. -/
  | shell (rest : String)
  /-- Unknown command: the `Default` hook received the full line. -/
  | defaulted (line : String)
  /-- A handler ran: registry key, sub-command key (when a sub-command
  was resolved), the argument text passed to the handler, the flag set
  the handler observed, and the handler's outcome. -/
  | ran (key : String) (subKey : Option String) (params : String)
        (flagsAtCall : FlagSet) (outcome : HandlerOutcome)
deriving DecidableEq

/-- The tail of `OneCmd`: top-level dispatch of `command` under registry
key `cname` (parse flags from token 1 on, call, then reset the flags;
a panic in the handler skips the reset because the source has no
`defer`). -/
def oneCmdTop (reg : Registry) (cname : String) (command : Command)
    (params line : String) : DispatchResult × Registry :=
  let args := processQuotes line
  let fs1 := parseFlags command.flags (args.drop 1)
  match command.call fs1 params with
  | HandlerOutcome.normal stop =>
    (DispatchResult.ran cname Option.none params fs1 (HandlerOutcome.normal stop),
     updateCmdFlags reg cname (resetAll fs1))
  | HandlerOutcome.panicked =>
    (DispatchResult.ran cname Option.none params fs1 HandlerOutcome.panicked,
     updateCmdFlags reg cname fs1)

/-- The sub-command branch of `OneCmd`: sub-command `subcommand`, found
under key `subcmd` of the command under registry key `cname` (parse
flags from token 2 on, call, then reset the flags; a panic in the
handler skips the reset because the source has no `defer`). -/
def oneCmdSub (reg : Registry) (cname subcmd : String) (subcommand : Command)
    (params line : String) : DispatchResult × Registry :=
  let args := processQuotes line
  let fs1 := parseFlags subcommand.flags (args.drop 2)
  match subcommand.call fs1 params with
  | HandlerOutcome.normal stop =>
    (DispatchResult.ran cname (Option.some subcmd) params fs1 (HandlerOutcome.normal stop),
     updateSubFlags reg cname subcmd (resetAll fs1))
  | HandlerOutcome.panicked =>
    (DispatchResult.ran cname (Option.some subcmd) params fs1 HandlerOutcome.panicked,
     updateSubFlags reg cname subcmd fs1)

/-- `Cmd.OneCmd`: execute one command line.  Note the sub-command
branch computes its `params` under `splitLine.length > 2`, where
`splitLine` comes from a 2-limited split and thus never has more than
two elements, exactly as in the source. -/
def oneCmd (enableShell : Bool) (reg : Registry) (line : String) :
    DispatchResult × Registry :=
  if enableShell && hasPrefixGo line "!" then
    (DispatchResult.shell (String.mk (line.toList.drop 1)), reg)
  else
    let parts := splitN2Space line
    let cname := parts.headD ""
    match lookupReg reg cname with
    | Option.none => (DispatchResult.defaulted line, reg)
    | Option.some command =>
      if 1 < parts.length then
        let splitLine := splitN2Space (parts.getD 1 "")
        let subcmd := splitLine.headD ""
        match lookupSub command subcmd with
        | Option.some subcommand =>
          oneCmdSub reg cname subcmd subcommand
            (if 2 < splitLine.length then trimSpaceGo (splitLine.getD 1 "") else "") line
        | Option.none =>
          oneCmdTop reg cname command (trimSpaceGo (parts.getD 1 "")) line
      else oneCmdTop reg cname command "" line

/-- How many leading tokens of the quote-processed line the dispatcher
skips before flag parsing: one for a top-level command, two when a
sub-command was resolved. -/
def subDrop : Option String → Nat
  | Option.none => 1
  | Option.some _ => 2

/-- The flag set the dispatcher stores back for the invoked command:
reset to the declared defaults after a normal return, left as parsed
when the handler panicked. -/
def postFlags (out : HandlerOutcome) (fs : FlagSet) : FlagSet :=
  match out with
  | HandlerOutcome.normal _ => resetAll fs
  | HandlerOutcome.panicked => fs

/- ### Help command -/

/-- One print effect of `Cmd.Help`.  Usage output (flag defaults and
help text, printed through `flags.Usage`) is abstracted to the alias of
the command whose usage is shown. -/
inductive HelpOut where
  | blank
  | text (s : String)
  | names (ns : List String)
  | usage (aliasName : String)
  | noHelp (line : String)
deriving DecidableEq, Repr

/-- `Command.Usage`: the command's own usage, then a blank line and the
usage of each sub-command (map iteration order modelled by list order). -/
def commandUsage (c : Command) : List HelpOut :=
  HelpOut.usage c.aliasName ::
    c.subCommands.foldr (fun e acc => HelpOut.blank :: HelpOut.usage e.2.aliasName :: acc) []

/-- `Cmd.Help`: the sequence of prints for `help` with argument text
`line`, given the registry and the sorted command-name list. -/
def helpCmd (reg : Registry) (commandNames : List String) (line : String) : List HelpOut :=
  [HelpOut.blank] ++
  (if line = "" then
    [HelpOut.text "Available commands (use 'help <topic>'):",
     HelpOut.text (String.mk (List.replicate 64 '=')),
     HelpOut.names commandNames]
  else
    let args := splitSpaceGo line
    if 1 < args.length then
      match lookupReg reg (args.getD 0 "") with
      | Option.some c =>
        match lookupSub c (args.getD 1 "") with
        | Option.some cm =>
          if cm.help ≠ "" then commandUsage cm else [HelpOut.noHelp line]
        | Option.none => [HelpOut.text "unknown command"]
      | Option.none => []
    else
      match lookupReg reg line with
      | Option.some c =>
        if c.help ≠ "" then commandUsage c else [HelpOut.noHelp line]
      | Option.none => [HelpOut.text "unknown command"]) ++
  [HelpOut.blank]

/- ### Completion -/

/-- Byte-wise lexicographic comparison of character lists (Go compares
strings byte by byte; for the ASCII names of this development the code
points compare identically). -/
def leCharsGo (xs ys : List Char) : Bool :=
  match xs, ys with
  | c :: cs, d :: ds =>
    if c.toNat < d.toNat then true
    else if d.toNat < c.toNat then false
    else leCharsGo cs ds
  | [], _ => true
  | _, _ => false

/-- Lexicographic string comparison, as `sort.Strings` orders. -/
def leStringGo (a b : String) : Bool :=
  leCharsGo a.toList b.toList

/-- Insert a string into a sorted list. -/
def insertSorted (x : String) : List String → List String
  | [] => [x]
  | y :: ys => if leStringGo x y then x :: y :: ys else y :: insertSorted x ys

/-- `sort.Strings`: sort a string list ascending. -/
def sortStrings (l : List String) : List String :=
  l.foldr insertSorted []

/-- Model of Go `strings.ToLower` (ASCII-accurate, which covers every
use in this development). -/
def toLowerGo (s : String) : String := String.mk (s.toList.map Char.toLower)

/-- The completer closure installed by `AddCommandCompleter`: every
command name that has the lower-cased typed line as a prefix, in the
order of the (sorted) name list. -/
def commandCompleter (commandNames : List String) (line : String) : List String :=
  commandNames.filter (fun n => hasPrefixGo n (toLowerGo line))

/-- The matching rule in the words of the specification: a registered
name matches when its prefix matches the typed text case-insensitively. -/
def specCaseInsensitiveCompleter (commandNames : List String) (line : String) : List String :=
  commandNames.filter (fun n => hasPrefixGo (toLowerGo n) (toLowerGo line))

/-- `AddCommandCompleter` builds the sorted name list from the registry
keys and installs `commandCompleter` over it. -/
def commandNamesOf (reg : Registry) : List String :=
  sortStrings (reg.map (fun e => e.1))

/- ### History store -/

/-- Whether and where `readHistoryFile` found a history file. -/
inductive HistRead where
  | noRead
  | fromCwd
  | fromHome
deriving DecidableEq, Repr

/-- The file system as seen through `os.Stat`/`os.Open`: which paths
exist and are readable. -/
structure FileSys where
  statOk : String → Bool

/-- Model of Go `path.Join` for the two-argument use in the source. -/
def pathJoin (a b : String) : String :=
  if a = "" then b else if b = "" then a else a ++ "/" ++ b

/-- `Cmd.readHistoryFile`: read from the configured path when it exists;
otherwise re-root the path under the home directory, read from there
when that exists, and update the stored history path to the re-rooted
path (the source performs this update unconditionally, after the
home-directory attempt).  Returns the new stored path and where a file
was read from. -/
def readHistoryFile (historyFile : String) (hasReadline : Bool) (home : String)
    (fsys : FileSys) : String × HistRead :=
  if historyFile = "" || !hasReadline then (historyFile, HistRead.noRead)
  else if fsys.statOk historyFile then (historyFile, HistRead.fromCwd)
  else
    let fp := pathJoin home historyFile
    (fp, if fsys.statOk fp then HistRead.fromHome else HistRead.noRead)

/- ### Async runner (`Cmd.Go`) -/

/-- What `Cmd.Go` decides to do with its line, before any interaction
with the wait group. -/
inductive GoAction where
  /-- The line starts with `-`: the `--start`/`--wait` option branch. -/
  | options
  /-- The line was rejected with "Don't go go me!" and not dispatched. -/
  | reject
  /-- The line is forked through `OneCmd`. -/
  | fork
deriving DecidableEq, Repr

/-- The dispatch decision of `Cmd.Go`: option lines are handled as
`--start`/`--wait`; a line with the literal prefix `"go "` is rejected;
every other line is forked. -/
def goAction (line : String) : GoAction :=
  if hasPrefixGo line "-" then GoAction.options
  else if hasPrefixGo line "go " then GoAction.reject
  else GoAction.fork

/-- The first whitespace-delimited token of a line (the notion used by
the specification sentence about the async runner). -/
def firstToken (line : String) : String :=
  (splitN2Space line).headD ""

/- ### Session: `Cmd`, `Init`, `CmdLoop`, `RestartLoop` -/

/-- A lifecycle hook value.  `Init` fills unset hooks with the listed
defaults; caller-supplied hooks are abstract (`user`). -/
inductive Hook where
  | noOp
  | closeReadline
  | passStop
  | printInvalid
  | user (id : Nat)
deriving DecidableEq, Repr

/-- The `Cmd` session before `Init`: lifecycle hooks the caller may have
supplied (`Option.none` models a nil Go function field). -/
structure PreSession where
  prompt : String
  historyFile : String
  preLoop : Option Hook
  postLoop : Option Hook
  preCmd : Option Hook
  postCmd : Option Hook
  emptyLine : Option Hook
  defaultHook : Option Hook
  enableShell : Bool
  commands : Registry
  commandNames : List String
  restartFlag : Bool

/-- The `Cmd` session after `Init`: every hook is set. -/
structure Session where
  prompt : String
  historyFile : String
  preLoop : Hook
  postLoop : Hook
  preCmd : Hook
  postCmd : Hook
  emptyLine : Hook
  defaultHook : Hook
  enableShell : Bool
  commands : Registry
  commandNames : List String
  restartFlag : Bool

/-- The handler of the built-in help command: `cmd.Help` always returns
false (its print behaviour is modelled by `helpCmd`). -/
def helpCall : FlagSet → String → HandlerOutcome :=
  fun _ _ => HandlerOutcome.normal false

/-- The built-in help command installed by `Init`. -/
def helpCommand : Command :=
  newCommand "help" [setHelp "list available commands", setCmd helpCall]

/-- `Cmd.Init`: default every unset hook, create a fresh command map,
and add the built-in help command to it. -/
def init (p : PreSession) : Session :=
  { prompt := p.prompt
    historyFile := p.historyFile
    preLoop := p.preLoop.getD Hook.noOp
    postLoop := p.postLoop.getD Hook.closeReadline
    preCmd := p.preCmd.getD Hook.noOp
    postCmd := p.postCmd.getD Hook.passStop
    emptyLine := p.emptyLine.getD Hook.noOp
    defaultHook := p.defaultHook.getD Hook.printInvalid
    enableShell := p.enableShell
    commands := addCmd [] helpCommand
    commandNames := p.commandNames
    restartFlag := p.restartFlag }

/-- One interaction with the line editor inside the loop. -/
inductive InEvent where
  | eof
  | readErr
  | line (raw : String)

/-- Observable events of a `CmdLoop` execution, in order. -/
inductive TraceEv where
  | ranPreLoop (h : Hook)
  | ranPostLoop (h : Hook)
  | ranPreCmd (h : Hook) (line : String)
  | ranPostCmd (h : Hook) (line : String)
  | ranEmptyLine (h : Hook)
  | ranDefault (h : Hook) (line : String)
  | appendedHistory (raw : String)
  | dispatched (line : String)
  | wroteHistory (path : String)
  | panicked
deriving DecidableEq

/-- The stop value produced by a dispatch (`OneCmd` returns false for
shell lines and unknown commands). -/
def stopOf : DispatchResult → Bool
  | DispatchResult.ran _ _ _ _ (HandlerOutcome.normal b) => b
  | _ => false

/-- The value of `PostCmd(line, stop)`: the default hook passes the stop
value through; a caller-supplied hook is an oracle. -/
def postCmdResult (pcSem : Hook → String → Bool → Bool) (h : Hook)
    (line : String) (stop : Bool) : Bool :=
  if h = Hook.passStop then stop else pcSem h line stop

/-- The prompt/read/dispatch cycle of `CmdLoop`: the end of the event
list and an explicit `eof` both model `ReadLine` signalling EOF; a read
error is reported and skipped; an empty trimmed line runs the
`EmptyLine` hook; otherwise the raw line is appended to history,
`PreCmd` runs, the line is dispatched, and `PostCmd` combines the stop
signal.  A handler panic aborts the loop (and `CmdLoop`) at once.
Returns the final registry, the trace, and whether a panic escaped. -/
def loopRun (pcSem : Hook → String → Bool → Bool) (s : Session) (reg : Registry) :
    List InEvent → Registry × List TraceEv × Bool
  | [] => (reg, [], false)
  | InEvent.eof :: _ => (reg, [], false)
  | InEvent.readErr :: rest => loopRun pcSem s reg rest
  | InEvent.line raw :: rest =>
    let line := trimSpaceGo raw
    if line = "" then
      let r := loopRun pcSem s reg rest
      (r.1, TraceEv.ranEmptyLine s.emptyLine :: r.2.1, r.2.2)
    else
      let d := oneCmd s.enableShell reg line
      let pre := [TraceEv.appendedHistory raw, TraceEv.ranPreCmd s.preCmd line,
                  TraceEv.dispatched line]
      match d.1 with
      | DispatchResult.ran _ _ _ _ HandlerOutcome.panicked =>
        (d.2, pre ++ [TraceEv.panicked], true)
      | res =>
        let defEv := match res with
          | DispatchResult.defaulted l => [TraceEv.ranDefault s.defaultHook l]
          | _ => []
        let stop := postCmdResult pcSem s.postCmd line (stopOf res)
        let evs := pre ++ defEv ++ [TraceEv.ranPostCmd s.postCmd line]
        if stop then (d.2, evs, false)
        else
          let r := loopRun pcSem s d.2 rest
          (r.1, evs ++ r.2.1, r.2.2)

/-- `Cmd.CmdLoop`: default the prompt, build the sorted command-name
list, run `PreLoop`, load history (re-rooting the stored path as
`readHistoryFile` does), run the loop, and on normal exit write history
and run `PostLoop`.  A panic escaping a handler skips the teardown. -/
def cmdLoop (pcSem : Hook → String → Bool → Bool) (fsys : FileSys) (home : String)
    (s : Session) (evs : List InEvent) : Session × List TraceEv :=
  let s1 := if s.prompt = "" then { s with prompt := "> " } else s
  let s2 := { s1 with commandNames := commandNamesOf s1.commands }
  let hist := readHistoryFile s2.historyFile true home fsys
  let s3 := { s2 with historyFile := hist.1 }
  let r := loopRun pcSem s3 s3.commands evs
  let s4 := { s3 with commands := r.1 }
  if r.2.2 then (s4, TraceEv.ranPreLoop s2.preLoop :: r.2.1)
  else
    (s4, TraceEv.ranPreLoop s2.preLoop :: r.2.1 ++
          [TraceEv.wroteHistory s3.historyFile, TraceEv.ranPostLoop s3.postLoop])

/-- A sequence of `CmdLoop` executions on the same session. -/
def cmdLoops (pcSem : Hook → String → Bool → Bool) (fsys : FileSys) (home : String)
    (s : Session) : List (List InEvent) → Session × List TraceEv
  | [] => (s, [])
  | evs :: more =>
    let r := cmdLoop pcSem fsys home s evs
    let r2 := cmdLoops pcSem fsys home r.1 more
    (r2.1, r.2 ++ r2.2)

/-- The state change `Cmd.RestartLoop` performs before re-entering the
loop: replace `PreLoop` with a fresh no-op and clear the restart flag. -/
def restartStep (s : Session) : Session :=
  { s with preLoop := Hook.noOp, restartFlag := false }

/-- `Cmd.RestartLoop`: the restart step followed by `CmdLoop`. -/
def restartLoop (pcSem : Hook → String → Bool → Bool) (fsys : FileSys) (home : String)
    (s : Session) (evs : List InEvent) : Session × List TraceEv :=
  cmdLoop pcSem fsys home (restartStep s) evs

/-- The hooks run as `PreLoop` during a trace, in order. -/
def preLoopHooks (tr : List TraceEv) : List Hook :=
  tr.filterMap (fun e => match e with
    | TraceEv.ranPreLoop h => Option.some h
    | _ => Option.none)

/- ### Concrete commands and registries for the dispatch scenarios -/

/-- A handler that returns false ("do not stop"). -/
def noopCall : FlagSet → String → HandlerOutcome := fun _ _ => HandlerOutcome.normal false

/-- A handler that panics. -/
def panicCall : FlagSet → String → HandlerOutcome := fun _ _ => HandlerOutcome.panicked

/-- Sub-command `s` of the command `c` below. -/
def subS : Command := Command.mk "s" "s" "" noopCall [] []

/-- Command `c` with declared sub-command `s`. -/
def cmdWithSub : Command := Command.mk "c" "c" "" noopCall [("s", subS)] []

/-- A registry holding `c` (with sub-command `s`). -/
def regWithSub : Registry := [("c", cmdWithSub)]

/-- A string flag `f` with declared default `"d"`. -/
def flagF : Flag := ⟨"f", "", "d", "d", false⟩

/-- Command `c` with flag `f` and a panicking handler. -/
def cmdPanic : Command := Command.mk "c" "c" "" panicCall [] [flagF]

/-- A registry holding the panicking `c`. -/
def regPanic : Registry := [("c", cmdPanic)]

/-- Command `c` with flag `f` and a normally returning handler. -/
def cmdFlag : Command := Command.mk "c" "c" "" noopCall [] [flagF]

/-- A registry holding the flag-bearing `c`. -/
def regFlag : Registry := [("c", cmdFlag)]

/-- A file system on which no path exists. -/
def absentFS : FileSys := ⟨fun _ => false⟩

/-- The registry right after `Init`. -/
def helpRegistry : Registry := addCmd [] helpCommand

/- ### Helper lemmas: association lists, flag sets, dispatch inversion -/

theorem Command.flags_withFlags (c : Command) (fs : FlagSet) : (c.withFlags fs).flags = fs := by
  cases c
  rfl

theorem Command.subCommands_withSubCommands (c : Command) (l : List (String × Command)) :
    (c.withSubCommands l).subCommands = l := by
  cases c
  rfl

theorem lookupReg_cons (e : String × Command) (l : List (String × Command)) (k : String) :
    lookupReg (e :: l) k = if e.1 == k then Option.some e.2 else lookupReg l k := by
  by_cases h : e.1 == k <;> simp [lookupReg, List.find?_cons, h]

theorem lookupReg_mapIf (l : List (String × Command)) (k : String) (g : Command → Command) :
    lookupReg (l.map (fun e => if e.1 == k then (e.1, g e.2) else e)) k
      = (lookupReg l k).map g := by
  induction l with
  | nil => rfl
  | cons e rest ih =>
    by_cases h : e.1 = k
    · simp [lookupReg_cons, h]
    · simp only [List.map_cons, lookupReg_cons, h, if_neg, beq_iff_eq, if_false]
      simpa using ih

theorem lookupReg_updateCmdFlags (reg : Registry) (k : String) (fs : FlagSet) :
    lookupReg (updateCmdFlags reg k fs) k
      = (lookupReg reg k).map (fun c => c.withFlags fs) :=
  lookupReg_mapIf reg k (fun c => c.withFlags fs)

theorem lookupReg_updateSubFlags (reg : Registry) (k sk : String) (fs : FlagSet) :
    lookupReg (updateSubFlags reg k sk fs) k
      = (lookupReg reg k).map (fun c => updateSubInCommand c sk fs) :=
  lookupReg_mapIf reg k (fun c => updateSubInCommand c sk fs)

theorem lookupSub_eq_lookupReg (c : Command) (k : String) :
    lookupSub c k = lookupReg c.subCommands k := rfl

theorem lookupSub_updateSubInCommand (c : Command) (sk : String) (fs : FlagSet) :
    lookupSub (updateSubInCommand c sk fs) sk
      = (lookupSub c sk).map (fun s => s.withFlags fs) := by
  simp only [lookupSub_eq_lookupReg]
  unfold updateSubInCommand
  rw [Command.subCommands_withSubCommands]
  exact lookupReg_mapIf c.subCommands sk (fun s => s.withFlags fs)

theorem regFlags_some_top (reg : Registry) (k : String) (c : Command)
    (h : lookupReg reg k = Option.some c) :
    regFlags reg k Option.none = Option.some c.flags := by
  unfold regFlags
  rw [h]

theorem regFlags_some_sub (reg : Registry) (k sk : String) (c : Command)
    (h : lookupReg reg k = Option.some c) :
    regFlags reg k (Option.some sk) = (lookupSub c sk).map Command.flags := by
  unfold regFlags
  rw [h]

theorem regFlags_updateCmdFlags (reg : Registry) (k : String) (fs : FlagSet) (c : Command)
    (h : lookupReg reg k = Option.some c) :
    regFlags (updateCmdFlags reg k fs) k Option.none = Option.some fs := by
  unfold regFlags
  rw [lookupReg_updateCmdFlags, h]
  simp [Command.flags_withFlags]

theorem regFlags_updateSubFlags (reg : Registry) (k sk : String) (fs : FlagSet)
    (c sub : Command) (h : lookupReg reg k = Option.some c)
    (hs : lookupSub c sk = Option.some sub) :
    regFlags (updateSubFlags reg k sk fs) k (Option.some sk) = Option.some fs := by
  unfold regFlags
  rw [lookupReg_updateSubFlags, h]
  simp [lookupSub_updateSubInCommand, hs, Command.flags_withFlags]

theorem lookupFlag_cons (f : Flag) (fs : FlagSet) (n : String) :
    lookupFlag (f :: fs) n = if f.name == n then Option.some f else lookupFlag fs n := by
  by_cases h : f.name == n <;> simp [lookupFlag, List.find?_cons, h]

theorem setFlagValue_cons (f : Flag) (fs : FlagSet) (m v : String) :
    setFlagValue (f :: fs) m v
      = (if f.name == m then { f with value := v } else f) :: setFlagValue fs m v := rfl

theorem lookupFlag_setFlagValue_sig (fs : FlagSet) (m v n : String) :
    Option.map flagSig (lookupFlag (setFlagValue fs m v) n)
      = Option.map flagSig (lookupFlag fs n) := by
  induction fs with
  | nil => rfl
  | cons f fs ih =>
    rw [setFlagValue_cons, lookupFlag_cons, lookupFlag_cons]
    by_cases hm : f.name = m
    · by_cases hn : f.name = n
      · have hmn : m = n := hm.symm.trans hn
        simp [hm, hmn, flagSig]
      · have hmn : ¬(m = n) := fun hc => hn (hm.trans hc)
        simp [hm, hmn, ih]
    · by_cases hn : f.name = n
      · have hnm : ¬(n = m) := fun hc => hm (hn.trans hc)
        simp [hn, hnm]
      · simp [hm, hn, ih]

theorem lookupFlag_setFlagValue_ne (fs : FlagSet) (m v n : String) (h : ¬(n = m)) :
    lookupFlag (setFlagValue fs m v) n = lookupFlag fs n := by
  induction fs with
  | nil => rfl
  | cons f fs ih =>
    rw [setFlagValue_cons, lookupFlag_cons, lookupFlag_cons]
    by_cases hm : f.name = m
    · have hmn : ¬(m = n) := fun hc => h ((hm.trans hc).symm.trans hm)
      simp [hm, hmn, ih]
    · by_cases hn : f.name = n
      · simp [hm, hn, h]
      · simp [hm, hn, ih]

theorem resetAll_cons (f : Flag) (fs : FlagSet) :
    resetAll (f :: fs) = { f with value := f.defValue } :: resetAll fs := rfl

theorem lookupFlag_resetAll (fs : FlagSet) (n : String) :
    lookupFlag (resetAll fs) n
      = (lookupFlag fs n).map (fun f => { f with value := f.defValue }) := by
  induction fs with
  | nil => rfl
  | cons f fs ih =>
    rw [resetAll_cons, lookupFlag_cons, lookupFlag_cons]
    by_cases hn : f.name = n
    · simp [hn]
    · simp [hn, ih]

theorem resetAll_value (fs : FlagSet) : ∀ f ∈ resetAll fs, f.value = f.defValue := by
  intro f hf
  simp only [resetAll, List.mem_map] at hf
  obtain ⟨g, _, rfl⟩ := hf
  rfl

theorem lookupFlag_parseFlags_sig (fs : FlagSet) (args : List String) (n : String) :
    Option.map flagSig (lookupFlag (parseFlags fs args) n)
      = Option.map flagSig (lookupFlag fs n) := by
  induction fs, args using parseFlags.induct <;>
    simp_all [parseFlags, lookupFlag_setFlagValue_sig]

theorem lookupFlag_parseFlags_of_not_parsed (fs : FlagSet) (args : List String) (n : String)
    (h : ¬(n ∈ parsedNames fs args)) :
    lookupFlag (parseFlags fs args) n = lookupFlag fs n := by
  induction fs, args using parseFlags.induct <;>
    simp_all [parseFlags, parsedNames, lookupFlag_setFlagValue_ne]

theorem leCharsGo_total (a b : List Char) :
    leCharsGo a b = true ∨ leCharsGo b a = true := by
  induction a generalizing b with
  | nil => left; rfl
  | cons c cs ih =>
    cases b with
    | nil => right; rfl
    | cons d ds =>
      rcases Nat.lt_trichotomy c.toNat d.toNat with h | h | h
      · left; simp [leCharsGo, h]
      · have h1 : ¬(c.toNat < d.toNat) := by omega
        have h2 : ¬(d.toNat < c.toNat) := by omega
        rcases ih ds with hd | hd
        · left; simp [leCharsGo, h1, h2, hd]
        · right; simp [leCharsGo, h1, h2, hd]
      · right; simp [leCharsGo, h]

theorem leStringGo_total (a b : String) :
    leStringGo a b = true ∨ leStringGo b a = true :=
  leCharsGo_total a.toList b.toList

theorem leCharsGo_trans (a b c : List Char) (h1 : leCharsGo a b = true)
    (h2 : leCharsGo b c = true) : leCharsGo a c = true := by
  induction a generalizing b c with
  | nil => rfl
  | cons x as ih =>
    cases b with
    | nil => simp [leCharsGo] at h1
    | cons y bs =>
      cases c with
      | nil => simp [leCharsGo] at h2
      | cons z cs =>
        simp only [leCharsGo] at h1 h2 ⊢
        by_cases hxy : x.toNat < y.toNat
        · by_cases hyz : y.toNat < z.toNat
          · have hxz : x.toNat < z.toNat := by omega
            simp [hxz]
          · by_cases hzy : z.toNat < y.toNat
            · rw [if_neg hyz, if_pos hzy] at h2
              exact absurd h2 (by simp)
            · have hxz : x.toNat < z.toNat := by omega
              simp [hxz]
        · by_cases hyx : y.toNat < x.toNat
          · rw [if_neg hxy, if_pos hyx] at h1
            exact absurd h1 (by simp)
          · rw [if_neg hxy, if_neg hyx] at h1
            by_cases hyz : y.toNat < z.toNat
            · have hxz : x.toNat < z.toNat := by omega
              simp [hxz]
            · by_cases hzy : z.toNat < y.toNat
              · rw [if_neg hyz, if_pos hzy] at h2
                exact absurd h2 (by simp)
              · rw [if_neg hyz, if_neg hzy] at h2
                have hxz : ¬(x.toNat < z.toNat) := by omega
                have hzx : ¬(z.toNat < x.toNat) := by omega
                rw [if_neg hxz, if_neg hzx]
                exact ih bs cs h1 h2

theorem leStringGo_trans (a b c : String) (h1 : leStringGo a b = true)
    (h2 : leStringGo b c = true) : leStringGo a c = true :=
  leCharsGo_trans a.toList b.toList c.toList h1 h2

theorem insertSorted_perm (x : String) (l : List String) :
    List.Perm (insertSorted x l) (x :: l) := by
  induction l with
  | nil => rfl
  | cons y ys ih =>
    unfold insertSorted
    split
    · rfl
    · exact (List.Perm.cons y ih).trans (List.Perm.swap x y ys)

theorem sortStrings_perm (l : List String) : List.Perm (sortStrings l) l := by
  induction l with
  | nil => rfl
  | cons x xs ih =>
    unfold sortStrings
    simp only [List.foldr_cons]
    exact (insertSorted_perm x _).trans (List.Perm.cons x ih)

theorem insertSorted_pairwise (x : String) (l : List String)
    (h : List.Pairwise (fun a b => leStringGo a b = true) l) :
    List.Pairwise (fun a b => leStringGo a b = true) (insertSorted x l) := by
  induction l with
  | nil => simp [insertSorted]
  | cons y ys ih =>
    unfold insertSorted
    rcases List.pairwise_cons.mp h with ⟨hy, hys⟩
    split
    · rename_i hxy
      refine List.pairwise_cons.mpr ⟨?_, h⟩
      intro z hz
      rcases List.mem_cons.mp hz with rfl | hz2
      · exact hxy
      · exact leStringGo_trans x y z hxy (hy z hz2)
    · rename_i hxy
      have hyx : leStringGo y x = true := by
        rcases leStringGo_total x y with h2 | h2
        · exact absurd h2 hxy
        · exact h2
      refine List.pairwise_cons.mpr ⟨?_, ih hys⟩
      intro z hz
      have hz2 := (insertSorted_perm x ys).mem_iff.mp hz
      rcases List.mem_cons.mp hz2 with rfl | hz3
      · exact hyx
      · exact hy z hz3

theorem sortStrings_pairwise (l : List String) :
    List.Pairwise (fun a b => leStringGo a b = true) (sortStrings l) := by
  induction l with
  | nil => exact List.Pairwise.nil
  | cons x xs ih =>
    unfold sortStrings
    simp only [List.foldr_cons]
    exact insertSorted_pairwise x _ ih

theorem oneCmdTop_inv (reg : Registry) (cname : String) (command : Command)
    (params line : String) (k : String) (sk : Option String) (p : String)
    (fsAt : FlagSet) (out : HandlerOutcome) (reg2 : Registry)
    (h : oneCmdTop reg cname command params line
          = (DispatchResult.ran k sk p fsAt out, reg2)) :
    k = cname ∧ sk = Option.none ∧ p = params ∧
    fsAt = parseFlags command.flags ((processQuotes line).drop 1) ∧
    reg2 = updateCmdFlags reg cname (postFlags out fsAt) := by
  simp only [oneCmdTop] at h
  split at h <;>
    (simp only [Prod.mk.injEq, DispatchResult.ran.injEq] at h
     obtain ⟨⟨hk, hsk, hp, hfs, hout⟩, hreg⟩ := h
     subst hk; subst hsk; subst hp; subst hfs; subst hout
     exact ⟨rfl, rfl, rfl, rfl, by rw [← hreg]; simp [postFlags]⟩)

theorem oneCmdSub_inv (reg : Registry) (cname subcmd : String) (subcommand : Command)
    (params line : String) (k : String) (sk : Option String) (p : String)
    (fsAt : FlagSet) (out : HandlerOutcome) (reg2 : Registry)
    (h : oneCmdSub reg cname subcmd subcommand params line
          = (DispatchResult.ran k sk p fsAt out, reg2)) :
    k = cname ∧ sk = Option.some subcmd ∧ p = params ∧
    fsAt = parseFlags subcommand.flags ((processQuotes line).drop 2) ∧
    reg2 = updateSubFlags reg cname subcmd (postFlags out fsAt) := by
  simp only [oneCmdSub] at h
  split at h <;>
    (simp only [Prod.mk.injEq, DispatchResult.ran.injEq] at h
     obtain ⟨⟨hk, hsk, hp, hfs, hout⟩, hreg⟩ := h
     subst hk; subst hsk; subst hp; subst hfs; subst hout
     exact ⟨rfl, rfl, rfl, rfl, by rw [← hreg]; simp [postFlags]⟩)

theorem oneCmd_ran_inv (es : Bool) (reg : Registry) (line : String) (k : String)
    (sk : Option String) (p : String) (fsAt : FlagSet) (out : HandlerOutcome)
    (reg2 : Registry)
    (h : oneCmd es reg line = (DispatchResult.ran k sk p fsAt out, reg2)) :
    ∃ fs0, regFlags reg k sk = Option.some fs0 ∧
      fsAt = parseFlags fs0 ((processQuotes line).drop (subDrop sk)) ∧
      regFlags reg2 k sk = Option.some (postFlags out fsAt) := by
  simp only [oneCmd] at h
  split at h
  · exact absurd h (by simp)
  · split at h
    · exact absurd h (by simp)
    · rename_i command hlook
      split at h
      · split at h
        · rename_i subcommand hsub
          obtain ⟨hk, hsk, hp, hfs, hreg⟩ := oneCmdSub_inv _ _ _ _ _ _ _ _ _ _ _ _ h
          subst hk; subst hsk
          refine ⟨subcommand.flags, ?_, ?_, ?_⟩
          · rw [regFlags_some_sub _ _ _ _ hlook, hsub]
            rfl
          · simpa [subDrop] using hfs
          · rw [hreg]
            exact regFlags_updateSubFlags _ _ _ _ _ _ hlook hsub
        · obtain ⟨hk, hsk, hp, hfs, hreg⟩ := oneCmdTop_inv _ _ _ _ _ _ _ _ _ _ _ h
          subst hk; subst hsk
          refine ⟨command.flags, ?_, ?_, ?_⟩
          · exact regFlags_some_top _ _ _ hlook
          · simpa [subDrop] using hfs
          · rw [hreg]
            exact regFlags_updateCmdFlags _ _ _ _ hlook
      · obtain ⟨hk, hsk, hp, hfs, hreg⟩ := oneCmdTop_inv _ _ _ _ _ _ _ _ _ _ _ h
        subst hk; subst hsk
        refine ⟨command.flags, ?_, ?_, ?_⟩
        · exact regFlags_some_top _ _ _ hlook
        · simpa [subDrop] using hfs
        · rw [hreg]
          exact regFlags_updateCmdFlags _ _ _ _ hlook

end CmdSpec

namespace CmdSpec

/- ### Claim theorems -/

/-- C1: the claim says the sub-command handler receives the remaining
free text (`"arg1 arg2"`); in the code the sub-command `params` is
assigned only under `len(splitLine) > 2`, which never holds for a
2-limited split, so dispatching `c s arg1 arg2` invokes the
sub-command handler of `s` with the empty argument string instead. -/
theorem subcommand_params_always_empty :
    (oneCmd false regWithSub "c s arg1 arg2").1
      = DispatchResult.ran "c" (Option.some "s") "" [] (HandlerOutcome.normal false)
    ∧ ("" : String) ≠ "arg1 arg2" :=
  ⟨by decide, by decide⟩

/-- C2 counterexample: flags are not reset on the panic exit path.
After dispatching `c -f x` to a panicking handler, the declared flag
`f` of `c` still holds the parsed value `"x"`, not its declared
default `"d"`. -/
theorem panic_skips_flag_reset :
    regFlags (oneCmd false regPanic "c -f x").2 "c" Option.none
      = Option.some [⟨"f", "", "d", "x", false⟩]
    ∧ ("x" : String) ≠ "d" :=
  ⟨by decide, by decide⟩

/-- C2 (amended): when the invoked handler returns normally, every
declared flag of the invoked command (or sub-command) is reset to its
declared default value before `OneCmd` returns; a handler panic
propagates and skips the reset. -/
theorem flags_reset_on_normal_return (es : Bool) (reg : Registry) (line : String)
    (k : String) (sk : Option String) (p : String) (fsAt : FlagSet) (s : Bool)
    (h : (oneCmd es reg line).1
          = DispatchResult.ran k sk p fsAt (HandlerOutcome.normal s)) :
    regFlags (oneCmd es reg line).2 k sk = Option.some (resetAll fsAt)
    ∧ ∀ f ∈ resetAll fsAt, f.value = f.defValue := by
  have hpair : oneCmd es reg line
      = (DispatchResult.ran k sk p fsAt (HandlerOutcome.normal s),
         (oneCmd es reg line).2) := by
    rw [← h]
  obtain ⟨fs0, _, _, hafter⟩ := oneCmd_ran_inv _ _ _ _ _ _ _ _ _ hpair
  exact ⟨by simpa [postFlags] using hafter, resetAll_value fsAt⟩

/-- Witness for the amended C2 theorem at a concrete dispatch. -/
theorem flags_reset_on_normal_return_witness :
    regFlags (oneCmd false regFlag "c -f x").2 "c" Option.none
      = Option.some (resetAll [⟨"f", "", "d", "x", false⟩])
    ∧ ∀ f ∈ resetAll [(⟨"f", "", "d", "x", false⟩ : Flag)], f.value = f.defValue :=
  flags_reset_on_normal_return false regFlag "c -f x" "c" Option.none "-f x"
    [⟨"f", "", "d", "x", false⟩] false (by decide)

/-- C3: if one dispatch of a command via `OneCmd` returns normally
after supplying a non-default value for a declared flag, and a second
dispatch of the same command omits that flag, then the handler of the
second dispatch observes the flag's declared default value. -/
theorem no_flag_leak_across_dispatches (es : Bool) (reg : Registry)
    (line1 line2 : String) (k : String) (sk : Option String) (p1 p2 : String)
    (fsAt1 fsAt2 : FlagSet) (s1 : Bool) (out2 : HandlerOutcome)
    (n v : String) (fl : Flag) (fs0 : FlagSet)
    (h1 : (oneCmd es reg line1).1
           = DispatchResult.ran k sk p1 fsAt1 (HandlerOutcome.normal s1))
    (h2 : (oneCmd es (oneCmd es reg line1).2 line2).1
           = DispatchResult.ran k sk p2 fsAt2 out2)
    (hdecl : regFlags reg k sk = Option.some fs0)
    (hfl : lookupFlag fs0 n = Option.some fl)
    (_hv1 : GetFlag fsAt1 n = v) (_hnd : ¬(v = fl.defValue))
    (homit : ¬(n ∈ parsedNames (resetAll fsAt1)
                  ((processQuotes line2).drop (subDrop sk)))) :
    GetFlag fsAt2 n = fl.defValue := by
  have hpair1 : oneCmd es reg line1
      = (DispatchResult.ran k sk p1 fsAt1 (HandlerOutcome.normal s1),
         (oneCmd es reg line1).2) := by
    rw [← h1]
  obtain ⟨fs0a, hr0a, hfs1, hafter1⟩ := oneCmd_ran_inv _ _ _ _ _ _ _ _ _ hpair1
  have hfs0 : fs0a = fs0 := by
    rw [hdecl] at hr0a
    exact (Option.some.injEq _ _ ▸ hr0a).symm
  subst hfs0
  have hpair2 : oneCmd es (oneCmd es reg line1).2 line2
      = (DispatchResult.ran k sk p2 fsAt2 out2,
         (oneCmd es (oneCmd es reg line1).2 line2).2) := by
    rw [← h2]
  obtain ⟨fs0b, hr0b, hfs2, _⟩ := oneCmd_ran_inv _ _ _ _ _ _ _ _ _ hpair2
  have hb : fs0b = resetAll fsAt1 := by
    rw [hafter1] at hr0b
    simpa [postFlags] using hr0b.symm
  subst hb
  -- the flag as the first handler observed it keeps the declared data
  have hsig := lookupFlag_parseFlags_sig fs0a ((processQuotes line1).drop (subDrop sk)) n
  rw [← hfs1, hfl] at hsig
  obtain ⟨fl1, hfl1, hsig1⟩ : ∃ fl1, lookupFlag fsAt1 n = Option.some fl1
      ∧ flagSig fl1 = flagSig fl := by
    cases hx : lookupFlag fsAt1 n with
    | none => rw [hx] at hsig; exact absurd hsig (by simp)
    | some fl1 =>
      rw [hx] at hsig
      exact ⟨fl1, rfl, by simpa using hsig⟩
  have hdef : fl1.defValue = fl.defValue := by
    simp [flagSig, Prod.mk.injEq] at hsig1
    exact hsig1.2.2.1
  -- the second handler observes the reset value
  rw [hfs2]
  unfold GetFlag
  rw [lookupFlag_parseFlags_of_not_parsed _ _ _ homit, lookupFlag_resetAll, hfl1]
  simpa using hdef

/-- Witness for the C3 theorem: dispatch `c -f x` then `c`; the second
dispatch observes the default `"d"`. -/
theorem no_flag_leak_across_dispatches_witness :
    GetFlag [(⟨"f", "", "d", "d", false⟩ : Flag)] "f" = flagF.defValue :=
  no_flag_leak_across_dispatches false regFlag "c -f x" "c" "c" Option.none
    "-f x" "" [⟨"f", "", "d", "x", false⟩] [⟨"f", "", "d", "d", false⟩] false
    (HandlerOutcome.normal false) "f" "x" flagF [flagF]
    (by decide) (by decide) (by decide) (by decide) (by decide) (by decide) (by decide)

/-- C4 counterexample: with a configured history path that exists
neither in the current directory nor under the home directory, the
stored history path is still updated to the home-re-rooted path (the
source performs the update unconditionally), contradicting the claim
that it is left unchanged when no file is found. -/
theorem history_path_updated_without_file :
    readHistoryFile ".rlhistory" true "/home/u" absentFS
      = ("/home/u/.rlhistory", HistRead.noRead)
    ∧ ("/home/u/.rlhistory" : String) ≠ ".rlhistory" :=
  ⟨by decide, by decide⟩

/-- C4 (amended): when the configured path exists in the current
directory it is kept and read; otherwise the stored path is always
updated to the home-re-rooted path, whether or not a file exists
there, and a missing file at either location is reported as a normal
"no read" outcome, not an error. -/
theorem history_path_resolution (historyFile home : String) (fsys : FileSys)
    (hne : ¬(historyFile = "")) :
    (fsys.statOk historyFile = true →
      readHistoryFile historyFile true home fsys = (historyFile, HistRead.fromCwd))
    ∧ (fsys.statOk historyFile = false →
      readHistoryFile historyFile true home fsys
        = (pathJoin home historyFile,
           if fsys.statOk (pathJoin home historyFile) then HistRead.fromHome
           else HistRead.noRead)) := by
  unfold readHistoryFile
  constructor
  · intro h
    simp [hne, h]
  · intro h
    simp [hne, h]

/-- Witness for the amended C4 theorem: no file exists at either
location, the path is re-rooted and nothing is read. -/
theorem history_path_resolution_witness :
    readHistoryFile ".rlhistory" true "/home/u" absentFS
      = (pathJoin "/home/u" ".rlhistory",
         if absentFS.statOk (pathJoin "/home/u" ".rlhistory") then HistRead.fromHome
         else HistRead.noRead) :=
  (history_path_resolution ".rlhistory" "/home/u" absentFS (by decide)).2 (by decide)

/-- C5 counterexample: `help foo bar` with `foo` not a registered
command prints nothing (only the surrounding blank lines), not
"unknown command": the two-argument branch of `Help` has no else for a
failed registry lookup. -/
theorem help_unknown_two_args_silent :
    helpCmd helpRegistry ["help"] "foo bar" = [HelpOut.blank, HelpOut.blank]
    ∧ ¬(HelpOut.text "unknown command" ∈ helpCmd helpRegistry ["help"] "foo bar") :=
  ⟨by decide, by decide⟩

/-- C5 (amended): `help <command>` with an unregistered name prints
"unknown command", and so does `help <command> <subcommand>` when the
command is registered but the sub-command is not declared; but
`help <command> <subcommand>` with an unregistered command prints
nothing beyond the surrounding blank lines. -/
theorem help_unknown_command_output (reg : Registry) (names : List String)
    (line : String) :
    (¬(line = "") → (splitSpaceGo line).length ≤ 1 →
      lookupReg reg line = Option.none →
      helpCmd reg names line
        = [HelpOut.blank, HelpOut.text "unknown command", HelpOut.blank])
    ∧ (∀ c, 1 < (splitSpaceGo line).length →
        lookupReg reg ((splitSpaceGo line).getD 0 "") = Option.some c →
        lookupSub c ((splitSpaceGo line).getD 1 "") = Option.none →
        helpCmd reg names line
          = [HelpOut.blank, HelpOut.text "unknown command", HelpOut.blank])
    ∧ (1 < (splitSpaceGo line).length →
        lookupReg reg ((splitSpaceGo line).getD 0 "") = Option.none →
        helpCmd reg names line = [HelpOut.blank, HelpOut.blank]) := by
  refine ⟨?_, ?_, ?_⟩
  · intro h1 h2 h3
    simp only [helpCmd]
    rw [if_neg h1, if_neg (Nat.not_lt.mpr h2), h3]
    simp
  · intro c hlen hc hs
    have hne : ¬(line = "") := fun h => absurd hlen (by subst h; decide)
    simp only [helpCmd]
    rw [if_neg hne, if_pos hlen, hc]
    dsimp only
    rw [hs]
    simp
  · intro hlen hc
    have hne : ¬(line = "") := fun h => absurd hlen (by subst h; decide)
    simp only [helpCmd]
    rw [if_neg hne, if_pos hlen, hc]
    simp

/-- Witness for the amended C5 theorem at the three concrete shapes. -/
theorem help_unknown_command_output_witness :
    helpCmd helpRegistry ["help"] "foo"
      = [HelpOut.blank, HelpOut.text "unknown command", HelpOut.blank]
    ∧ helpCmd helpRegistry ["help"] "help bar"
      = [HelpOut.blank, HelpOut.text "unknown command", HelpOut.blank]
    ∧ helpCmd helpRegistry ["help"] "foo bar" = [HelpOut.blank, HelpOut.blank] :=
  ⟨(help_unknown_command_output helpRegistry ["help"] "foo").1
      (by decide) (by decide) (by rfl),
   (help_unknown_command_output helpRegistry ["help"] "help bar").2.1
      helpCommand (by decide) (by rfl) (by rfl),
   (help_unknown_command_output helpRegistry ["help"] "foo bar").2.2
      (by decide) (by rfl)⟩

/-- C6 counterexample: the completer lower-cases only the typed text,
not the registered names, so registered name `LS` is not offered for
typed text `ls` although its prefix matches case-insensitively; the
specification-worded matcher disagrees with the code on this input. -/
theorem completer_not_case_insensitive :
    commandCompleter (sortStrings ["LS"]) "ls" = []
    ∧ specCaseInsensitiveCompleter (sortStrings ["LS"]) "ls" = ["LS"]
    ∧ commandCompleter (sortStrings ["LS"]) "ls"
        ≠ specCaseInsensitiveCompleter (sortStrings ["LS"]) "ls" :=
  ⟨by decide, by decide, by decide⟩

/-- C6 (amended): the completer returns exactly the registered names
that start with the lower-cased typed text (the names themselves are
compared case-sensitively), in sorted order; the example with
`{ls, two, three}` and typed `t` returns `[three, two]`. -/
theorem completer_matches (names : List String) (line : String) :
    (∀ n, n ∈ commandCompleter (sortStrings names) line ↔
        n ∈ names ∧ hasPrefixGo n (toLowerGo line) = true)
    ∧ List.Pairwise (fun a b => leStringGo a b = true)
        (commandCompleter (sortStrings names) line)
    ∧ commandCompleter (sortStrings ["ls", "two", "three"]) "t" = ["three", "two"] := by
  refine ⟨?_, ?_, by decide⟩
  · intro n
    unfold commandCompleter
    rw [List.mem_filter]
    constructor
    · rintro ⟨hmem, hpred⟩
      exact ⟨(sortStrings_perm names).mem_iff.mp hmem, hpred⟩
    · rintro ⟨hmem, hpred⟩
      exact ⟨(sortStrings_perm names).mem_iff.mpr hmem, hpred⟩
  · exact List.Pairwise.filter _ (sortStrings_pairwise names)

/-- C7 counterexample: only double-quote characters are stripped from
tokens; a token delimited by single quotes (a Unicode quotation mark,
so it does group) keeps its quote characters, contradicting the claim
that the delimiting quote characters are stripped. -/
theorem single_quotes_not_stripped :
    processQuotes "ls 'a b'" = ["ls", "'a b'"]
    ∧ processQuotes "ls 'a b'" ≠ ["ls", "a b"] :=
  ⟨by decide, by decide⟩

/-- C7 (amended): the tokenizer splits on white space treating text
delimited by matching quotation-mark characters as one token; all
double-quote characters (and only those) are deleted from the
resulting tokens; the documented example tokenizes as claimed. -/
theorem tokenizer_quotes (line : String) :
    processQuotes "ls \"two words\" -n 3" = ["ls", "two words", "-n", "3"]
    ∧ (processQuotes line).all
        (fun t => t.toList.all (fun c => !(c == '"'))) = true := by
  refine ⟨by decide, ?_⟩
  unfold processQuotes
  rw [List.all_eq_true]
  intro t ht
  rw [List.mem_map] at ht
  obtain ⟨a, _, rfl⟩ := ht
  rw [List.all_eq_true]
  intro c hc
  exact (List.mem_filter.mp hc).2

/-- C8 counterexample: the line `go` has first whitespace-delimited
token `go` (the async command's own name) but is forked, not
rejected: the source tests the literal prefix `"go "`. -/
theorem bare_go_is_forked :
    firstToken "go" = "go"
    ∧ goAction "go" = GoAction.fork
    ∧ GoAction.fork ≠ GoAction.reject :=
  ⟨by decide, by decide, by decide⟩

/-- C8 (amended): the async runner rejects exactly the lines that
start with the four characters `go ` (space included); in particular a
bare `go`, or `go` followed by a non-space separator, is forked. -/
theorem go_reject_iff_go_space (line : String) :
    goAction line = GoAction.reject ↔ hasPrefixGo line "go " = true := by
  constructor
  · intro h
    unfold goAction at h
    by_cases h1 : hasPrefixGo line "-" = true
    · rw [if_pos h1] at h
      exact absurd h (by simp)
    · rw [if_neg h1] at h
      by_cases h2 : hasPrefixGo line "go " = true
      · exact h2
      · rw [if_neg h2] at h
        exact absurd h (by simp)
  · intro h
    have h1 : ¬(hasPrefixGo line "-" = true) := by
      intro hd
      rw [hasPrefixGo, List.isPrefixOf_iff_prefix] at h hd
      obtain ⟨t, ht⟩ := h
      obtain ⟨t2, ht2⟩ := hd
      rw [← ht] at ht2
      rw [show ("-".toList) = ['-'] from rfl,
          show ("go ".toList) = ['g', 'o', ' '] from rfl] at ht2
      simp only [List.cons_append, List.nil_append, List.cons.injEq] at ht2
      exact absurd ht2.1 (by decide)
    unfold goAction
    rw [if_neg h1, if_pos h]

/-- `preLoopHooks` distributes over trace concatenation. -/
theorem preLoopHooks_append (a b : List TraceEv) :
    preLoopHooks (a ++ b) = preLoopHooks a ++ preLoopHooks b :=
  List.filterMap_append a b _

/-- The prompt/read/dispatch cycle itself never runs `PreLoop`. -/
theorem loopRun_no_preLoop (pcSem : Hook → String → Bool → Bool) (s : Session)
    (reg : Registry) (evs : List InEvent) :
    preLoopHooks (loopRun pcSem s reg evs).2.1 = [] := by
  induction evs generalizing reg with
  | nil => rfl
  | cons e rest ih =>
    cases e with
    | eof => rfl
    | readErr => exact ih reg
    | line raw =>
      simp only [loopRun]
      split
      · simp only [preLoopHooks, List.filterMap_cons]
        exact ih _
      · split
        · rfl
        · split <;>
            (simp [preLoopHooks, preLoopHooks_append, List.filterMap_cons];
             try (split <;> simp)) <;>
            exact List.filterMap_eq_nil_iff.mp (ih _)

theorem preLoopHooks_cons_preLoop (h : Hook) (tr : List TraceEv) :
    preLoopHooks (TraceEv.ranPreLoop h :: tr) = h :: preLoopHooks tr := rfl

theorem preLoopHooks_teardown (p : String) (h : Hook) :
    preLoopHooks [TraceEv.wroteHistory p, TraceEv.ranPostLoop h] = [] := rfl

/-- One `CmdLoop` execution runs exactly the session's current
`PreLoop` hook (once, first) and leaves the hook fields unchanged. -/
theorem cmdLoop_preLoop (pcSem : Hook → String → Bool → Bool) (fsys : FileSys)
    (home : String) (s : Session) (evs : List InEvent) :
    preLoopHooks (cmdLoop pcSem fsys home s evs).2 = [s.preLoop]
    ∧ (cmdLoop pcSem fsys home s evs).1.preLoop = s.preLoop := by
  simp only [cmdLoop]
  split <;>
    (split <;>
      simp [preLoopHooks_cons_preLoop, preLoopHooks_append, preLoopHooks_teardown,
            loopRun_no_preLoop])

/-- A sequence of `CmdLoop` executions runs the (unchanged) `PreLoop`
hook once per execution. -/
theorem cmdLoops_preLoop (pcSem : Hook → String → Bool → Bool) (fsys : FileSys)
    (home : String) (runs : List (List InEvent)) : ∀ s : Session,
    preLoopHooks (cmdLoops pcSem fsys home s runs).2
      = List.replicate runs.length s.preLoop
    ∧ (cmdLoops pcSem fsys home s runs).1.preLoop = s.preLoop := by
  induction runs with
  | nil => exact fun s => ⟨rfl, rfl⟩
  | cons evs more ih =>
    intro s
    simp only [cmdLoops]
    obtain ⟨h1, h2⟩ := cmdLoop_preLoop pcSem fsys home s evs
    obtain ⟨h3, h4⟩ := ih (cmdLoop pcSem fsys home s evs).1
    constructor
    · rw [preLoopHooks_append, h1, h3, h2]
      simp [List.replicate_succ]
    · rw [h4, h2]

/-- C9: after `Init`, the session's command registry is a freshly
created mapping with exactly one entry, keyed `help` and bound to the
built-in help command; any commands present before `Init` (in the
`PreSession`) are discarded. -/
theorem init_registry_exactly_help (p : PreSession) :
    (init p).commands = [("help", helpCommand)]
    ∧ lookupReg (init p).commands "help" = Option.some helpCommand
    ∧ (init p).commands.map (fun e => e.1) = ["help"]
    ∧ helpCommand.name = "help"
    ∧ helpCommand.help = "list available commands" :=
  ⟨rfl, rfl, rfl, rfl, rfl⟩

/-- C10: `RestartLoop` replaces the session's `PreLoop` hook with a
no-op and clears the restart flag before re-entering the loop; all
other lifecycle hooks are unchanged; and the `PreLoop` hook run by the
re-entered loop, and by every later `CmdLoop` execution on the
resulting session, is the no-op, never the originally supplied one. -/
theorem restart_loop_replaces_preLoop (s : Session)
    (pcSem : Hook → String → Bool → Bool) (fsys : FileSys) (home : String)
    (evs : List InEvent) (runs : List (List InEvent)) :
    (restartStep s).preLoop = Hook.noOp
    ∧ (restartStep s).restartFlag = false
    ∧ (restartStep s).postLoop = s.postLoop
    ∧ (restartStep s).preCmd = s.preCmd
    ∧ (restartStep s).postCmd = s.postCmd
    ∧ (restartStep s).emptyLine = s.emptyLine
    ∧ (restartStep s).defaultHook = s.defaultHook
    ∧ (restartStep s).prompt = s.prompt
    ∧ (restartStep s).commands = s.commands
    ∧ preLoopHooks (restartLoop pcSem fsys home s evs).2 = [Hook.noOp]
    ∧ preLoopHooks
        (cmdLoops pcSem fsys home (restartLoop pcSem fsys home s evs).1 runs).2
      = List.replicate runs.length Hook.noOp := by
  refine ⟨rfl, rfl, rfl, rfl, rfl, rfl, rfl, rfl, rfl, ?_, ?_⟩
  · exact (cmdLoop_preLoop pcSem fsys home (restartStep s) evs).1
  · have h2 := (cmdLoop_preLoop pcSem fsys home (restartStep s) evs).2
    have h3 := (cmdLoops_preLoop pcSem fsys home runs
      (restartLoop pcSem fsys home s evs).1).1
    rw [h3]
    have h4 : (restartLoop pcSem fsys home s evs).1.preLoop = Hook.noOp := h2
    rw [h4]

/-- Witness for the amended C6 theorem: `three` is offered for typed
text `t` because it is registered and starts with the lowered text. -/
theorem completer_matches_witness :
    "three" ∈ commandCompleter (sortStrings ["ls", "two", "three"]) "t" :=
  ((completer_matches ["ls", "two", "three"] "t").1 "three").mpr
    ⟨by decide, by decide⟩

/-- Witness for the amended C8 theorem: `go x` is rejected. -/
theorem go_reject_iff_go_space_witness :
    goAction "go x" = GoAction.reject :=
  (go_reject_iff_go_space "go x").mpr (by decide)

end CmdSpec
